import Mathlib

/-!
A verification development for the Proof-of-History entry engine
(`src/entry.rs`): the `Entry` record, the `next_hash` chain step, entry and
slice verification, the transaction packer `next_entries_mut`, and the
blob framing round-trip.

The transaction layer, the `Poh` state, the blob framing and the byte
serialization live outside the checked sources; those pieces are modelled
from the specification and carry a doc comment saying so.  Everything else
is translated directly from `src/entry.rs`.
-/

namespace Solana

/-- Modelled from the spec: a `Transaction` is opaque; the engine requires
only `serialized_size` and an order-sensitive batch digest.  `content`
stands for the serialized bytes' identity, `size` for their length. -/
structure Transaction where
  content : Nat
  size : Nat
deriving DecidableEq, Repr

/-- Modelled from the spec: `Transaction::serialized_size(&self) → u64`. -/
def Transaction.serialized_size (tx : Transaction) : Nat := tx.size

/-- Modelled from the spec: SHA-256 digests as a free term algebra (the
ideal collision-free hash).  `seed` is an arbitrary 32-byte value, `sha h`
is `SHA256(h)`, `mix h m` extends the chain `h` with a 32-byte mixin `m`,
`tickMark` is the well-known tick marker constant (disjoint from any
transaction digest), and `txDigest txs` is `Transaction::hash(txs)`, the
order-sensitive digest of a transaction batch. -/
inductive Hash where
  | seed (n : Nat) : Hash
  | sha (h : Hash) : Hash
  | mix (h m : Hash) : Hash
  | tickMark : Hash
  | txDigest (txs : List Transaction) : Hash
deriving DecidableEq, Repr

/-- Modelled from the spec: `Transaction::hash(&[Transaction]) → Hash`,
an order-sensitive digest of the batch. -/
def Transaction.hash (transactions : List Transaction) : Hash :=
  Hash.txDigest transactions

/-- Modelled from the spec: the PoH state, `(current_hash, counter)`. -/
structure Poh where
  id : Hash
  num_hashes : Nat
deriving DecidableEq, Repr

/-- Modelled from the spec: `Poh::new(seed, counter)`. -/
def Poh.new (id : Hash) (num_hashes : Nat) : Poh := ⟨id, num_hashes⟩

/-- Modelled from the spec: `hash(&mut self)` advances the chain by one
plain SHA-256 step and bumps the counter. -/
def Poh.hash (p : Poh) : Poh := ⟨Hash.sha p.id, p.num_hashes + 1⟩

/-- Modelled from the spec: what `tick()` / `record()` return — the
resulting id and the number of hashes applied since the last emission. -/
structure PohEntry where
  id : Hash
  num_hashes : Nat
deriving DecidableEq, Repr

/-- Modelled from the spec: `tick(&mut self)` applies one final mix with
the tick marker, returns the resulting id and hash count, and resets the
counter.  The pair is (returned record, state afterwards). -/
def Poh.tick (p : Poh) : PohEntry × Poh :=
  let id := Hash.mix p.id Hash.tickMark
  (⟨id, p.num_hashes + 1⟩, ⟨id, 0⟩)

/-- Modelled from the spec: `record(&mut self, mixin)` mixes an arbitrary
32-byte digest into the chain. -/
def Poh.record (p : Poh) (mixin : Hash) : PohEntry × Poh :=
  let id := Hash.mix p.id mixin
  (⟨id, p.num_hashes + 1⟩, ⟨id, 0⟩)

/-- Modelled from the spec: `BLOB_DATA_SIZE`, the fixed upper bound on an
entry's serialized payload, set by the framing layer (`packet.rs` is not
among the checked sources; the exact value is immaterial to the claims). -/
def BLOB_DATA_SIZE : Nat := 65280

/-- The `Entry` record of `src/entry.rs`. -/
structure Entry where
  tick_height : Nat
  num_hashes : Nat
  id : Hash
  transactions : List Transaction
deriving DecidableEq, Repr

/-- `next_hash(start_hash, num_hashes, transactions)` from `src/entry.rs`:
the hash `num_hashes` after `start_hash`; `for _ in 1..num_hashes` performs
`num_hashes - 1` plain steps, then one `tick`/`record` mix. -/
def next_hash (start_hash : Hash) (num_hashes : Nat)
    (transactions : List Transaction) : Hash :=
  if num_hashes = 0 ∧ transactions = [] then
    start_hash
  else
    let poh := Nat.iterate Poh.hash (num_hashes - 1) (Poh.new start_hash 0)
    if transactions = [] then
      (poh.tick).1.id
    else
      (poh.record (Transaction.hash transactions)).1.id

/-- `Entry::serialized_size(transactions)` from `src/entry.rs`:
`3 * size_of::<u64>() + size_of::<Hash>()` plus the transactions' sizes. -/
def Entry.serialized_size (transactions : List Transaction) : Nat :=
  let txs_size := (transactions.map Transaction.serialized_size).sum
  3 * 8 + 32 + txs_size

/-- `Entry::new(prev_id, tick_height, num_hashes, transactions)` from
`src/entry.rs`.  The `panic!` on an oversized entry is modelled as
`none`. -/
def Entry.new (prev_id : Hash) (tick_height num_hashes : Nat)
    (transactions : List Transaction) : Option Entry :=
  let entry : Entry :=
    if num_hashes = 0 ∧ transactions = [] then
      { tick_height := tick_height, num_hashes := 0, id := prev_id,
        transactions := transactions }
    else if num_hashes = 0 then
      { tick_height := tick_height, num_hashes := 1,
        id := next_hash prev_id 1 transactions, transactions := transactions }
    else
      { tick_height := tick_height, num_hashes := num_hashes,
        id := next_hash prev_id num_hashes transactions,
        transactions := transactions }
  let size := Entry.serialized_size entry.transactions
  if size > BLOB_DATA_SIZE then none else some entry

/-- Modelled from the spec: the bincode-serialized size of a whole entry,
per the binary record format — `tick_height` u64, `num_hashes` u64, a
32-byte id, a u64 length prefix, then the transactions' payloads. -/
def entryBincodeSize (e : Entry) : Nat :=
  8 + 8 + 32 + 8 + (e.transactions.map Transaction.serialized_size).sum

/-- `Entry::verify(&self, start_hash)` from `src/entry.rs`. -/
def Entry.verify (e : Entry) (start_hash : Hash) : Bool :=
  let ref_hash := next_hash start_hash e.num_hashes e.transactions
  if e.id ≠ ref_hash then false else true

/-- `Entry::is_tick` from `src/entry.rs`. -/
def Entry.is_tick (e : Entry) : Bool := e.transactions.isEmpty

/-- `Entry::new_mut(start_hash, num_hashes, transactions)` from
`src/entry.rs`: builds the entry with `tick_height = 0`, consumes the
accumulator, advances the hash state to the entry's id and resets the
accumulator; the trailing `assert!` on the serialized size is modelled as
a further `none` case.  Returns (entry, new start_hash, new accumulator). -/
def Entry.new_mut (start_hash : Hash) (num_hashes : Nat)
    (transactions : List Transaction) : Option (Entry × Hash × Nat) :=
  match Entry.new start_hash 0 num_hashes transactions with
  | none => none
  | some entry =>
      if entryBincodeSize entry ≤ BLOB_DATA_SIZE then
        some (entry, entry.id, 0)
      else
        none

/-- `EntrySlice::verify(&self, start_hash)` from `src/entry.rs`: prepend a
genesis entry whose id is `start_hash`, zip it with the slice, and require
every adjacent pair to verify. -/
def EntrySlice.verify (entries : List Entry) (start_hash : Hash) : Bool :=
  let genesis : List Entry :=
    [{ tick_height := 0, num_hashes := 0, id := start_hash,
       transactions := [] }]
  ((genesis ++ entries).zip entries).all fun p => p.2.verify p.1.id

/-- The outcome of running loop-bearing code: a value, a Rust `panic!`
(fatal abort), or exhaustion of the step budget the model imposes on the
source's unbounded loops (the source's loop not having finished within the
given number of iterations). -/
inductive Res (α : Type) where
  | ok (a : α) : Res α
  | panic : Res α
  | outOfFuel : Res α
deriving DecidableEq, Repr

/-- The Rust slice `transactions[chunk_start..chunk_end]`. -/
def sliceTxs (transactions : List Transaction) (chunk_start chunk_end : Nat) :
    List Transaction :=
  (transactions.drop chunk_start).take (chunk_end - chunk_start)

/-- The inner `loop` of `next_entries_mut` in `src/entry.rs`: bisect for a
`chunk_end` so that `transactions[chunk_start..chunk_end]` serializes
within `BLOB_DATA_SIZE`; on break, the converged `chunk_end`.  `fuel`
bounds the number of iterations of the source's unbounded `loop`. -/
def chunkSearch (fuel : Nat) (transactions : List Transaction)
    (chunk_start chunk_end upper lower : Nat) : Option Nat :=
  match fuel with
  | 0 => none
  | fuel + 1 =>
      if Entry.serialized_size (sliceTxs transactions chunk_start chunk_end) ≤
          BLOB_DATA_SIZE then
        let next := (upper + chunk_end) / 2
        if next = chunk_end then some chunk_end
        else chunkSearch fuel transactions chunk_start next upper chunk_end
      else
        let next := (lower + chunk_end) / 2
        if next = chunk_end then some chunk_end
        else chunkSearch fuel transactions chunk_start next chunk_end lower

/-- Iteration budget handed to `chunkSearch`: ample for a bisection over
`[chunk_start, transactions.len()]`. -/
def searchFuel (transactions : List Transaction) : Nat :=
  transactions.length + 66

/-- The outer `while chunk_start < transactions.len()` loop of
`next_entries_mut` in `src/entry.rs`, returning the entries emitted from
`chunk_start` onward together with the final hash state and accumulator.
`fuel` bounds the number of iterations of the source's `while` loop. -/
def packLoop (fuel : Nat) (start_hash : Hash) (num_hashes : Nat)
    (transactions : List Transaction) (chunk_start : Nat) :
    Res (List Entry × Hash × Nat) :=
  match fuel with
  | 0 => .outOfFuel
  | fuel + 1 =>
      if chunk_start < transactions.length then
        match chunkSearch (searchFuel transactions) transactions chunk_start
            transactions.length transactions.length chunk_start with
        | none => .outOfFuel
        | some chunk_end =>
            match Entry.new_mut start_hash num_hashes
                (sliceTxs transactions chunk_start chunk_end) with
            | none => .panic
            | some (entry, start_hash, num_hashes) =>
                match packLoop fuel start_hash num_hashes transactions
                    chunk_end with
                | .ok (entries, s, n) => .ok (entry :: entries, s, n)
                | .panic => .panic
                | .outOfFuel => .outOfFuel
      else
        .ok ([], start_hash, num_hashes)

/-- `next_entries_mut(start_hash, num_hashes, transactions)` from
`src/entry.rs`.  Returns the emitted entries together with the final
`start_hash` and `num_hashes` of the mutated state. -/
def next_entries_mut (fuel : Nat) (start_hash : Hash) (num_hashes : Nat)
    (transactions : List Transaction) : Res (List Entry × Hash × Nat) :=
  if transactions.isEmpty || transactions.length == 1 then
    match Entry.new_mut start_hash num_hashes transactions with
    | none => .panic
    | some (entry, s, n) => .ok ([entry], s, n)
  else
    packLoop fuel start_hash num_hashes transactions 0

/-- `next_entries(start_hash, num_hashes, transactions)` from
`src/entry.rs`: run `next_entries_mut` on copies of the state. -/
def next_entries (fuel : Nat) (start_hash : Hash) (num_hashes : Nat)
    (transactions : List Transaction) : Res (List Entry × Hash × Nat) :=
  next_entries_mut fuel start_hash num_hashes transactions

/-- Modelled from the spec: one self-delimiting unit of the bincode byte
stream — a little-endian u64 word, a 32-byte hash, or one serialized
transaction (each transaction self-describes its length). -/
inductive Field where
  | word (n : Nat) : Field
  | hashF (h : Hash) : Field
  | tx (t : Transaction) : Field
deriving DecidableEq, Repr

/-- Modelled from the spec: the binary record format of an entry —
`tick_height`, `num_hashes`, `id`, a u64 length prefix, then the
transactions in order. -/
def serializeEntry (e : Entry) : List Field :=
  Field.word e.tick_height :: Field.word e.num_hashes :: Field.hashF e.id ::
    Field.word e.transactions.length :: e.transactions.map Field.tx

/-- Modelled from the spec: read `n` transactions off the stream, returning
them with the rest of the stream. -/
def readTxs : Nat → List Field → Option (List Transaction × List Field)
  | 0, rest => some ([], rest)
  | n + 1, Field.tx t :: rest =>
      match readTxs n rest with
      | some (txs, r) => some (t :: txs, r)
      | none => none
  | _ + 1, _ => none

/-- Modelled from the spec: bincode deserialization of a single entry from
a byte stream — header fields in order, then as many transactions as the
length prefix announces. -/
def deserializeEntry (data : List Field) : Option Entry :=
  match data with
  | Field.word tick_height :: Field.word num_hashes :: Field.hashF id ::
      Field.word n :: rest =>
      match readTxs n rest with
      | some (transactions, _) =>
          some { tick_height := tick_height, num_hashes := num_hashes,
                 id := id, transactions := transactions }
      | none => none
  | _ => none

/-- Modelled from the spec: a fixed-capacity network record; `data` holds
the serialized payload and `size` the actual payload length. -/
structure Blob where
  data : List Field
  size : Nat
deriving DecidableEq, Repr

/-- `Entry::to_blob` from `src/entry.rs`: serialize the entry into a
blob's data and set the blob's size to the bytes written.  The `expect` on
a payload over the blob's capacity is modelled as `none`. -/
def Entry.to_blob (e : Entry) : Option Blob :=
  if entryBincodeSize e ≤ BLOB_DATA_SIZE then
    some { data := serializeEntry e, size := (serializeEntry e).length }
  else
    none

/-- `EntrySlice::to_blobs` from `src/entry.rs`: one blob per entry, in
order. -/
def EntrySlice.to_blobs : List Entry → Option (List Blob)
  | [] => some []
  | e :: es =>
      match e.to_blob, EntrySlice.to_blobs es with
      | some b, some bs => some (b :: bs)
      | _, _ => none

/-- `reconstruct_entries_from_blobs` from `src/entry.rs`: deserialize one
entry from each blob's first `size` units, counting ticks; any failure
surfaces as `none`. -/
def reconstruct_entries_from_blobs : List Blob → Option (List Entry × Nat)
  | [] => some ([], 0)
  | blob :: rest =>
      match deserializeEntry (blob.data.take blob.size) with
      | none => none
      | some entry =>
          match reconstruct_entries_from_blobs rest with
          | none => none
          | some (entries, num_ticks) =>
              some (entry :: entries,
                (if entry.is_tick then 1 else 0) + num_ticks)

/-! ### Basic lemmas -/

theorem entryBincodeSize_eq (e : Entry) :
    entryBincodeSize e = Entry.serialized_size e.transactions := by
  simp [entryBincodeSize, Entry.serialized_size]

theorem next_hash_nil_zero (prev : Hash) : next_hash prev 0 [] = prev := by
  simp [next_hash]

theorem next_hash_of_ne_nil (prev : Hash) (m : Nat) (txs : List Transaction)
    (h : txs ≠ []) :
    next_hash prev m txs =
      Hash.mix (Nat.iterate Poh.hash (m - 1) (Poh.new prev 0)).id
        (Hash.txDigest txs) := by
  simp [next_hash, h, Poh.record, Transaction.hash]

theorem Entry.new_spec {prev : Hash} {th n : Nat} {txs : List Transaction}
    {e : Entry} (h : Entry.new prev th n txs = some e) :
    e.transactions = txs ∧ e.tick_height = th ∧
    e.id = next_hash prev e.num_hashes txs ∧
    Entry.serialized_size txs ≤ BLOB_DATA_SIZE ∧
    (txs ≠ [] → e.num_hashes = if n = 0 then 1 else n) := by
  unfold Entry.new at h
  by_cases h1 : n = 0 ∧ txs = []
  · obtain ⟨hn, ht⟩ := h1
    subst hn ht
    simp at h
    obtain ⟨hsize, he⟩ := h
    subst he
    simp [next_hash_nil_zero, hsize]
  · by_cases h2 : n = 0
    · have ht : txs ≠ [] := by
        intro hnil
        exact h1 ⟨h2, hnil⟩
      subst h2
      simp [h1, ht] at h
      obtain ⟨hsize, he⟩ := h
      subst he
      simp [ht, hsize]
    · simp [h1, h2] at h
      obtain ⟨hsize, he⟩ := h
      subst he
      simp [h2, hsize]

theorem Entry.new_verify {prev : Hash} {th n : Nat} {txs : List Transaction}
    {e : Entry} (h : Entry.new prev th n txs = some e) :
    e.verify prev = true := by
  obtain ⟨htx, -, hid, -, -⟩ := Entry.new_spec h
  simp [Entry.verify, htx, hid]

theorem Entry.new_isSome_iff (prev : Hash) (th n : Nat)
    (txs : List Transaction) :
    (Entry.new prev th n txs).isSome ↔
      Entry.serialized_size txs ≤ BLOB_DATA_SIZE := by
  unfold Entry.new
  by_cases h1 : n = 0 ∧ txs = []
  · obtain ⟨hn, ht⟩ := h1
    subst hn ht
    by_cases hs : Entry.serialized_size ([] : List Transaction) ≤ BLOB_DATA_SIZE <;>
      simp [hs, Nat.lt_iff_add_one_le, Nat.not_le.symm]
  · by_cases h2 : n = 0
    · have htne : txs ≠ [] := by tauto
      by_cases hs : Entry.serialized_size txs ≤ BLOB_DATA_SIZE <;>
        simp [h1, h2, htne, hs]
    · by_cases hs : Entry.serialized_size txs ≤ BLOB_DATA_SIZE <;>
        simp [h1, h2, hs]

theorem Entry.new_mut_spec {s : Hash} {n : Nat} {txs : List Transaction}
    {e : Entry} {s2 : Hash} {n2 : Nat}
    (h : Entry.new_mut s n txs = some (e, s2, n2)) :
    Entry.new s 0 n txs = some e ∧ s2 = e.id ∧ n2 = 0 ∧
    entryBincodeSize e ≤ BLOB_DATA_SIZE := by
  unfold Entry.new_mut at h
  split at h
  · exact absurd h (by simp)
  · split at h
    · simp only [Option.some.injEq, Prod.mk.injEq] at h
      obtain ⟨he, hs2, hn2⟩ := h
      subst he hs2 hn2
      exact ⟨by assumption, rfl, rfl, by assumption⟩
    · exact absurd h (by simp)

/-! ### Claim theorems: entry construction and sizes -/

/-- C9: `Entry::serialized_size(txs)` is the 56-byte fixed header
(`tick_height` + `num_hashes` + 32-byte id + u64 length prefix) plus the
sum of the transactions' serialized sizes, and it equals the
bincode-serialized size of any entry whose `transactions` field is
`txs`. -/
theorem serialized_size_eq_header_plus_txs (txs : List Transaction)
    (th nh : Nat) (id : Hash) :
    Entry.serialized_size txs =
        56 + (txs.map Transaction.serialized_size).sum ∧
      entryBincodeSize
          { tick_height := th, num_hashes := nh, id := id,
            transactions := txs } =
        Entry.serialized_size txs := by
  constructor
  · simp [Entry.serialized_size]
  · simp [entryBincodeSize, Entry.serialized_size]

/-- C10: verifying the empty entry slice succeeds against any starting
hash. -/
theorem verify_nil_slice (start_hash : Hash) :
    EntrySlice.verify [] start_hash = true := rfl

/-- C6: `Entry::new` fails fatally (modelled `none`) exactly when the
serialized size of the would-be entry exceeds `BLOB_DATA_SIZE`; otherwise
the entry it returns serializes within `BLOB_DATA_SIZE`. -/
theorem new_fatal_iff_oversize (prev : Hash) (th n : Nat)
    (txs : List Transaction) :
    (Entry.new prev th n txs = none ↔
        BLOB_DATA_SIZE < Entry.serialized_size txs) ∧
      ∀ e, Entry.new prev th n txs = some e →
        entryBincodeSize e ≤ BLOB_DATA_SIZE := by
  constructor
  · rw [← Option.not_isSome_iff_eq_none, Entry.new_isSome_iff]
    omega
  · intro e h
    obtain ⟨htx, -, -, hsize, -⟩ := Entry.new_spec h
    rw [entryBincodeSize_eq, htx]
    exact hsize

/-- C8: an entry returned by `Entry::new` has `num_hashes = 0` only in the
degenerate no-op case (empty transactions, id equal to `prev_id`); and
`num_hashes == 0` with a non-empty transaction list is promoted to a
single mix step over the batch digest from `prev_id`. -/
theorem new_zero_hashes_invariant (prev : Hash) (th n : Nat)
    (txs : List Transaction) (e : Entry)
    (h : Entry.new prev th n txs = some e) :
    (e.num_hashes = 0 → e.transactions = [] ∧ e.id = prev) ∧
      (n = 0 → txs ≠ [] →
        e.num_hashes = 1 ∧
          e.id = Hash.mix prev (Hash.txDigest txs)) := by
  obtain ⟨htx, -, hid, -, hpos⟩ := Entry.new_spec h
  constructor
  · intro h0
    have : txs = [] := by
      by_contra hne
      rw [hpos hne] at h0
      split at h0 <;> simp_all
    subst this
    rw [htx, hid, h0, next_hash_nil_zero]
    exact ⟨rfl, rfl⟩
  · intro hn hne
    have h1 : e.num_hashes = 1 := by
      rw [hpos hne]
      simp [hn]
    refine ⟨h1, ?_⟩
    rw [hid, h1, next_hash_of_ne_nil prev 1 txs hne]
    simp [Poh.new]

/-- C8 witness: `Entry::new(seed, 0, 0, [tx])` at a concrete transaction. -/
theorem new_zero_hashes_invariant_witness :
    ((⟨0, 1, Hash.mix (Hash.seed 0) (Hash.txDigest [⟨0, 10⟩]),
        [⟨0, 10⟩]⟩ : Entry).num_hashes = 0 →
      (⟨0, 1, Hash.mix (Hash.seed 0) (Hash.txDigest [⟨0, 10⟩]),
        [⟨0, 10⟩]⟩ : Entry).transactions = [] ∧
      (⟨0, 1, Hash.mix (Hash.seed 0) (Hash.txDigest [⟨0, 10⟩]),
        [⟨0, 10⟩]⟩ : Entry).id = Hash.seed 0) ∧
    (0 = 0 → [(⟨0, 10⟩ : Transaction)] ≠ [] →
      (⟨0, 1, Hash.mix (Hash.seed 0) (Hash.txDigest [⟨0, 10⟩]),
        [⟨0, 10⟩]⟩ : Entry).num_hashes = 1 ∧
      (⟨0, 1, Hash.mix (Hash.seed 0) (Hash.txDigest [⟨0, 10⟩]),
        [⟨0, 10⟩]⟩ : Entry).id =
        Hash.mix (Hash.seed 0) (Hash.txDigest [⟨0, 10⟩])) :=
  new_zero_hashes_invariant (Hash.seed 0) 0 0 [⟨0, 10⟩] _ (by decide)

/-! ### Slice verification -/

theorem EntrySlice.verify_cons (e : Entry) (es : List Entry) (s : Hash) :
    EntrySlice.verify (e :: es) s =
      (e.verify s && EntrySlice.verify es e.id) := by
  cases es with
  | nil => simp [EntrySlice.verify]
  | cons e1 es1 => simp [EntrySlice.verify, Bool.and_assoc]

/-- C2: slice verification succeeds exactly when the first entry verifies
against `start_hash` and each later entry verifies against its
predecessor's id; equivalently, one mismatching pair forces `false`. -/
theorem slice_verify_iff_pairwise (entries : List Entry)
    (start_hash : Hash) :
    EntrySlice.verify entries start_hash = true ↔
      ∀ i : Fin entries.length,
        (entries.get i).verify
          (if i.val = 0 then start_hash
           else
             (entries.get
               ⟨i.val - 1,
                 lt_of_le_of_lt (Nat.sub_le i.val 1) i.isLt⟩).id) = true := by
  induction entries generalizing start_hash with
  | nil =>
      constructor
      · intro _ i
        exact i.elim0
      · intro _
        rfl
  | cons e es ih =>
      rw [EntrySlice.verify_cons, Bool.and_eq_true, ih e.id]
      constructor
      · rintro ⟨hv, hrest⟩ ⟨i, hlt⟩
        match i with
        | 0 => simpa using hv
        | Nat.succ k =>
            have hk : k < es.length := by simpa using hlt
            have hx := hrest ⟨k, hk⟩
            match k with
            | 0 => simpa using hx
            | Nat.succ m => simpa using hx
      · intro hall
        constructor
        · simpa using hall ⟨0, by simp⟩
        · rintro ⟨k, hk⟩
          have hx := hall ⟨k + 1, by simpa using hk⟩
          match k with
          | 0 => simpa using hx
          | Nat.succ m => simpa using hx

/-- C3: swapping two distinct transactions of an entry built by
`Entry::new` yields an entry that fails `verify` against the original
`prev_id`. -/
theorem swap_transactions_fails_verify (prev : Hash) (th n i j : Nat)
    (txs : List Transaction) (e : Entry)
    (hlen : 2 ≤ txs.length) (hi : i < txs.length) (hj : j < txs.length)
    (hij : i ≠ j) (hne : txs.get ⟨i, hi⟩ ≠ txs.get ⟨j, hj⟩)
    (h : Entry.new prev th n txs = some e) :
    Entry.verify
      { e with transactions :=
          (txs.set i (txs.get ⟨j, hj⟩)).set j (txs.get ⟨i, hi⟩) }
      prev = false := by
  obtain ⟨htx, -, hid, -, -⟩ := Entry.new_spec h
  have htne : txs ≠ [] := by
    intro hnil
    rw [hnil] at hlen
    simp at hlen
  set txs2 := (txs.set i (txs.get ⟨j, hj⟩)).set j (txs.get ⟨i, hi⟩) with htxs2
  have hlen2 : txs2.length = txs.length := by simp [htxs2]
  have htne2 : txs2 ≠ [] := by
    intro hnil
    rw [hnil] at hlen2
    simp at hlen2
    omega
  have hdiff : txs2 ≠ txs := by
    intro heq
    have hgi : txs2.get ⟨i, by omega⟩ = txs.get ⟨j, hj⟩ := by
      simp [htxs2, List.getElem_set_ne, Ne.symm hij, hi]
    rw [List.get_of_eq heq ⟨i, by omega⟩] at hgi
    exact hne (by simpa using hgi)
  have hne2 : e.id ≠ next_hash prev e.num_hashes txs2 := by
    rw [hid, next_hash_of_ne_nil prev _ txs htne,
      next_hash_of_ne_nil prev _ txs2 htne2]
    intro hcontra
    simp only [Hash.mix.injEq, Hash.txDigest.injEq] at hcontra
    exact hdiff hcontra.2.symm
  simp [Entry.verify, htxs2] at hne2 ⊢
  exact hne2

/-- C3 witness: two distinct concrete transactions, swapped. -/
theorem swap_transactions_fails_verify_witness :
    Entry.verify
      { (⟨0, 1, Hash.mix (Hash.seed 0) (Hash.txDigest [⟨0, 10⟩, ⟨1, 20⟩]),
          [⟨0, 10⟩, ⟨1, 20⟩]⟩ : Entry) with
        transactions :=
          (([⟨0, 10⟩, ⟨1, 20⟩] : List Transaction).set 0
              (([⟨0, 10⟩, ⟨1, 20⟩] : List Transaction).get ⟨1, by decide⟩)).set 1
            (([⟨0, 10⟩, ⟨1, 20⟩] : List Transaction).get ⟨0, by decide⟩) }
      (Hash.seed 0) = false :=
  swap_transactions_fails_verify (Hash.seed 0) 0 0 0 1
    [⟨0, 10⟩, ⟨1, 20⟩] _ (by decide) (by decide) (by decide) (by decide)
    (by decide) (by decide)

/-! ### The packer -/

theorem chunkSearch_ge {fuel : Nat} {txs : List Transaction}
    {cs ce upper lower v : Nat} (hcl : cs ≤ lower) (hlc : lower ≤ ce)
    (hcu : ce ≤ upper)
    (h : chunkSearch fuel txs cs ce upper lower = some v) : cs ≤ v := by
  induction fuel generalizing ce upper lower with
  | zero => simp [chunkSearch] at h
  | succ fuel ih =>
      simp only [chunkSearch] at h
      split at h
      · split at h
        · simp only [Option.some.injEq] at h
          omega
        · exact ih (by omega) (by omega) (by omega) h
      · split at h
        · simp only [Option.some.injEq] at h
          omega
        · exact ih (by omega) (by omega) (by omega) h

theorem packLoop_spec {fuel : Nat} {s : Hash} {n : Nat}
    {txs : List Transaction} {cs : Nat} {es : List Entry} {s2 : Hash}
    {n2 : Nat} (h : packLoop fuel s n txs cs = .ok (es, s2, n2)) :
    EntrySlice.verify es s = true ∧
    (es.map fun e => e.transactions).flatten = txs.drop cs ∧
    ∀ e ∈ es, entryBincodeSize e ≤ BLOB_DATA_SIZE := by
  induction fuel generalizing s n cs es s2 n2 with
  | zero => simp [packLoop] at h
  | succ fuel ih =>
      rw [packLoop] at h
      split at h
      case isTrue hcs =>
        split at h
        · simp at h
        case _ ce hce =>
          split at h
          · simp at h
          case _ entry s3 n3 hnm =>
            split at h
            case _ es1 s4 n4 hrec =>
              simp only [Res.ok.injEq, Prod.mk.injEq] at h
              obtain ⟨he, hs4, hn4⟩ := h
              subst he
              obtain ⟨hnew, hs3, -, hbin⟩ := Entry.new_mut_spec hnm
              obtain ⟨htxe, -, -, -, -⟩ := Entry.new_spec hnew
              have hv := Entry.new_verify hnew
              have hge : cs ≤ ce :=
                chunkSearch_ge (le_refl cs) (le_of_lt hcs) (le_refl _) hce
              obtain ⟨ihv, ihcov, ihsize⟩ := ih hrec
              refine ⟨?_, ?_, ?_⟩
              · rw [EntrySlice.verify_cons, hv, Bool.true_and, ← hs3]
                exact ihv
              · simp only [List.map_cons, List.flatten_cons, ihcov, htxe]
                unfold sliceTxs
                have hd : txs.drop ce = (txs.drop cs).drop (ce - cs) := by
                  rw [List.drop_drop]
                  congr 1
                  omega
                rw [hd, List.take_append_drop]
              · intro e hmem
                rcases List.mem_cons.mp hmem with he1 | he2
                · rw [he1]
                  exact hbin
                · exact ihsize e he2
            · simp at h
            · simp at h
      case isFalse hcs =>
        simp only [Res.ok.injEq, Prod.mk.injEq] at h
        obtain ⟨he, -, -⟩ := h
        subst he
        refine ⟨rfl, ?_, by simp⟩
        rw [List.drop_eq_nil_of_le (by omega)]
        rfl

theorem next_entries_mut_spec {fuel : Nat} {s : Hash} {n : Nat}
    {txs : List Transaction} {es : List Entry} {s2 : Hash} {n2 : Nat}
    (h : next_entries_mut fuel s n txs = .ok (es, s2, n2)) :
    EntrySlice.verify es s = true ∧
    (es.map fun e => e.transactions).flatten = txs ∧
    ∀ e ∈ es, entryBincodeSize e ≤ BLOB_DATA_SIZE := by
  unfold next_entries_mut at h
  split at h
  · split at h
    · simp at h
    case _ entry s3 n3 hnm =>
      simp only [Res.ok.injEq, Prod.mk.injEq] at h
      obtain ⟨he, -, -⟩ := h
      subst he
      obtain ⟨hnew, -, -, hbin⟩ := Entry.new_mut_spec hnm
      obtain ⟨htxe, -, -, -, -⟩ := Entry.new_spec hnew
      have hv := Entry.new_verify hnew
      refine ⟨?_, ?_, ?_⟩
      · rw [EntrySlice.verify_cons, hv]
        rfl
      · simp [htxe]
      · intro e hmem
        rcases List.mem_cons.mp hmem with he1 | he2
        · rw [he1]
          exact hbin
        · simp at he2
  · simpa using packLoop_spec h

/-- C1: every entry sequence the packer emits (from `seed` with
accumulator 0) verifies as a chain against `seed`. -/
theorem packer_output_verifies (fuel : Nat) (seed : Hash)
    (txs : List Transaction) (es : List Entry) (s2 : Hash) (n2 : Nat)
    (h : next_entries_mut fuel seed 0 txs = .ok (es, s2, n2)) :
    EntrySlice.verify es seed = true :=
  (next_entries_mut_spec h).1

/-- C1 witness: a concrete packer run on two small transactions. -/
theorem packer_output_verifies_witness :
    EntrySlice.verify
      [⟨0, 1, Hash.mix (Hash.seed 0) (Hash.txDigest [⟨0, 10⟩, ⟨0, 10⟩]),
        [⟨0, 10⟩, ⟨0, 10⟩]⟩] (Hash.seed 0) = true :=
  packer_output_verifies 10 (Hash.seed 0) [⟨0, 10⟩, ⟨0, 10⟩]
    [⟨0, 1, Hash.mix (Hash.seed 0) (Hash.txDigest [⟨0, 10⟩, ⟨0, 10⟩]),
      [⟨0, 10⟩, ⟨0, 10⟩]⟩]
    (Hash.mix (Hash.seed 0) (Hash.txDigest [⟨0, 10⟩, ⟨0, 10⟩])) 0 (by decide)

/-- C5: whenever the packer returns, every emitted entry serializes within
`BLOB_DATA_SIZE` and the concatenation of the emitted entries'
transactions equals the input list, in order, with no duplication or
omission. -/
theorem packer_size_and_coverage (fuel : Nat) (s : Hash) (n : Nat)
    (txs : List Transaction) (es : List Entry) (s2 : Hash) (n2 : Nat)
    (h : next_entries_mut fuel s n txs = .ok (es, s2, n2)) :
    (∀ e ∈ es, entryBincodeSize e ≤ BLOB_DATA_SIZE) ∧
    (es.map fun e => e.transactions).flatten = txs :=
  ⟨(next_entries_mut_spec h).2.2, (next_entries_mut_spec h).2.1⟩

/-- C5 witness: a concrete packer run on three mid-sized transactions
that splits into two entries. -/
theorem packer_size_and_coverage_witness :
    (∀ e ∈ [(⟨0, 1, Hash.mix (Hash.seed 1)
               (Hash.txDigest [⟨2, 30000⟩, ⟨2, 30000⟩]),
             [⟨2, 30000⟩, ⟨2, 30000⟩]⟩ : Entry),
            ⟨0, 1, Hash.mix
               (Hash.mix (Hash.seed 1)
                 (Hash.txDigest [⟨2, 30000⟩, ⟨2, 30000⟩]))
               (Hash.txDigest [⟨2, 30000⟩]),
             [⟨2, 30000⟩]⟩],
        entryBincodeSize e ≤ BLOB_DATA_SIZE) ∧
    ([(⟨0, 1, Hash.mix (Hash.seed 1)
          (Hash.txDigest [⟨2, 30000⟩, ⟨2, 30000⟩]),
        [⟨2, 30000⟩, ⟨2, 30000⟩]⟩ : Entry),
      ⟨0, 1, Hash.mix
          (Hash.mix (Hash.seed 1)
            (Hash.txDigest [⟨2, 30000⟩, ⟨2, 30000⟩]))
          (Hash.txDigest [⟨2, 30000⟩]),
        [⟨2, 30000⟩]⟩].map fun e => e.transactions).flatten =
      [⟨2, 30000⟩, ⟨2, 30000⟩, ⟨2, 30000⟩] :=
  packer_size_and_coverage 10 (Hash.seed 1) 0
    [⟨2, 30000⟩, ⟨2, 30000⟩, ⟨2, 30000⟩]
    [⟨0, 1, Hash.mix (Hash.seed 1)
        (Hash.txDigest [⟨2, 30000⟩, ⟨2, 30000⟩]),
      [⟨2, 30000⟩, ⟨2, 30000⟩]⟩,
     ⟨0, 1, Hash.mix
        (Hash.mix (Hash.seed 1)
          (Hash.txDigest [⟨2, 30000⟩, ⟨2, 30000⟩]))
        (Hash.txDigest [⟨2, 30000⟩]),
      [⟨2, 30000⟩]⟩]
    (Hash.mix
      (Hash.mix (Hash.seed 1) (Hash.txDigest [⟨2, 30000⟩, ⟨2, 30000⟩]))
      (Hash.txDigest [⟨2, 30000⟩])) 0 (by decide)

theorem packLoop_stuck : ∀ (fuel : Nat) (h : Hash),
    packLoop fuel h 0 [⟨0, 10⟩, ⟨1, BLOB_DATA_SIZE⟩] 1 = Res.outOfFuel := by
  intro fuel
  induction fuel with
  | zero =>
      intro h
      rfl
  | succ fuel ih =>
      intro h
      have hstep : packLoop (fuel + 1) h 0 [⟨0, 10⟩, ⟨1, BLOB_DATA_SIZE⟩] 1 =
          match packLoop fuel h 0 [⟨0, 10⟩, ⟨1, BLOB_DATA_SIZE⟩] 1 with
          | .ok (entries, s, n) => .ok ((⟨0, 0, h, []⟩ : Entry) :: entries, s, n)
          | .panic => .panic
          | .outOfFuel => .outOfFuel := rfl
      rw [hstep, ih h]

/-- C4: with a transaction so large that even a one-transaction chunk
exceeds `BLOB_DATA_SIZE` (here, alongside one small transaction), the
inner binary search converges to a *feasible chunk of size 0*
(`chunk_end = chunk_start = 1`), and `next_entries_mut` never aborts:
it loops forever emitting empty entries (`outOfFuel` at every step
budget), contradicting the claimed fatal error. -/
theorem oversize_tx_search_yields_empty_chunk_and_packer_spins :
    (chunkSearch (searchFuel [⟨0, 10⟩, ⟨1, BLOB_DATA_SIZE⟩])
        [⟨0, 10⟩, ⟨1, BLOB_DATA_SIZE⟩] 1 2 2 1 = some 1) ∧
    ∀ fuel, next_entries_mut fuel (Hash.seed 0) 0
        [⟨0, 10⟩, ⟨1, BLOB_DATA_SIZE⟩] = Res.outOfFuel := by
  refine ⟨by decide, fun fuel => ?_⟩
  cases fuel with
  | zero => rfl
  | succ fuel =>
      have hstep : next_entries_mut (fuel + 1) (Hash.seed 0) 0
          [⟨0, 10⟩, ⟨1, BLOB_DATA_SIZE⟩] =
          match packLoop fuel
              (Hash.mix (Hash.seed 0) (Hash.txDigest [⟨0, 10⟩])) 0
              [⟨0, 10⟩, ⟨1, BLOB_DATA_SIZE⟩] 1 with
          | .ok (entries, s, n) =>
              .ok ((⟨0, 1, Hash.mix (Hash.seed 0) (Hash.txDigest [⟨0, 10⟩]),
                     [⟨0, 10⟩]⟩ : Entry) :: entries, s, n)
          | .panic => .panic
          | .outOfFuel => .outOfFuel := rfl
      rw [hstep,
        packLoop_stuck fuel (Hash.mix (Hash.seed 0) (Hash.txDigest [⟨0, 10⟩]))]

/-! ### Blob framing round-trip -/

theorem readTxs_map_append (txs : List Transaction) (r : List Field) :
    readTxs txs.length (txs.map Field.tx ++ r) = some (txs, r) := by
  induction txs with
  | nil => rfl
  | cons t ts ih => simp [readTxs, ih]

theorem deserializeEntry_serializeEntry (e : Entry) :
    deserializeEntry (serializeEntry e) = some e := by
  have h := readTxs_map_append e.transactions []
  rw [List.append_nil] at h
  simp [serializeEntry, deserializeEntry, h]

/-- C7: for a legal entry sequence (each entry fitting in one blob, i.e.
`to_blobs` succeeds), reconstruction from the blobs returns the original
entries together with the number of tick entries (empty transaction
lists) among them. -/
theorem reconstruct_to_blobs_roundtrip (entries : List Entry)
    (blobs : List Blob) (h : EntrySlice.to_blobs entries = some blobs) :
    reconstruct_entries_from_blobs blobs =
      some (entries, entries.countP fun e => e.is_tick) := by
  induction entries generalizing blobs with
  | nil =>
      simp only [EntrySlice.to_blobs, Option.some.injEq] at h
      subst h
      rfl
  | cons e es ih =>
      unfold EntrySlice.to_blobs at h
      split at h
      case _ b bs hb hbs =>
        simp only [Option.some.injEq] at h
        subst h
        unfold Entry.to_blob at hb
        split at hb
        · simp only [Option.some.injEq] at hb
          subst hb
          unfold reconstruct_entries_from_blobs
          simp only [List.take_length, deserializeEntry_serializeEntry,
            ih bs hbs, List.countP_cons]
          by_cases htick : e.is_tick <;> simp [htick, Nat.add_comm]
        · simp at hb
      case _ hne =>
        simp at h

/-- C7 witness: a two-entry sequence (one tick, one transaction entry)
through blobs and back. -/
theorem reconstruct_to_blobs_roundtrip_witness :
    reconstruct_entries_from_blobs
        [{ data := serializeEntry (⟨0, 0, Hash.seed 0, []⟩ : Entry),
           size := (serializeEntry (⟨0, 0, Hash.seed 0, []⟩ : Entry)).length },
         { data := serializeEntry
             (⟨0, 1, Hash.mix (Hash.seed 0) (Hash.txDigest [⟨0, 10⟩]),
               [⟨0, 10⟩]⟩ : Entry),
           size := (serializeEntry
             (⟨0, 1, Hash.mix (Hash.seed 0) (Hash.txDigest [⟨0, 10⟩]),
               [⟨0, 10⟩]⟩ : Entry)).length }] =
      some ([(⟨0, 0, Hash.seed 0, []⟩ : Entry),
             ⟨0, 1, Hash.mix (Hash.seed 0) (Hash.txDigest [⟨0, 10⟩]),
               [⟨0, 10⟩]⟩],
        ([(⟨0, 0, Hash.seed 0, []⟩ : Entry),
          ⟨0, 1, Hash.mix (Hash.seed 0) (Hash.txDigest [⟨0, 10⟩]),
            [⟨0, 10⟩]⟩].countP fun e => e.is_tick)) :=
  reconstruct_to_blobs_roundtrip
    [⟨0, 0, Hash.seed 0, []⟩,
     ⟨0, 1, Hash.mix (Hash.seed 0) (Hash.txDigest [⟨0, 10⟩]), [⟨0, 10⟩]⟩]
    _ (by decide)

end Solana
